import Mathlib

/-
Verification development for the osformat format-string engine
(src/osformat/osformat.h, src/osformat/osformat.cc).

The C++ sources are shallowly embedded: strings are lists of characters,
the mutable Format object is a record threaded through the functions, the
heap-allocated Manip objects are entries of a list addressed by their index,
and machine integers are natural numbers reduced modulo 2^64 where the
source relies on fixed-width arithmetic.  Loops of the source are embedded
as recursive functions; the two scanning loops of Format::ParseFormat carry
an explicit fuel argument (running out of fuel yields the sentinel error
code kEnd, which the source reserves as an end marker and never reports).
The value-to-text conversions delegated to std::ostream are outside the
repository; they are modelled from the spec (section 2, OUT OF SCOPE) and
are marked as such below.
-/

set_option linter.unusedVariables false

namespace osformat

/-- Error codes, from the enum Error::Code in osformat.h. -/
inductive Error.Code where
  | kNone
  | kWriteFailed
  | kFlushFailed
  | kTooManyArguments
  | kTooFewArguments
  | kTooEarlyArgument
  | kLocaleArgIsNoLocale
  | kLocaleMustNotBeOutput
  | kPrecisionArgIsNotNumeric
  | kWidthArgIsNotNumeric
  | kFillArgIsNotChar
  | kTrailingPercentage
  | kNumberWithoutDollar
  | kNumberOverflow
  | kMissingSpecifier
  | kUnknownSpecifier
  | kMissingFillCharacter
  | kEnd
  deriving DecidableEq, Repr

/-- The Special flag constants of class Special (osformat.h). -/
def Special.kNone : Nat := 0

def Special.kNewline : Nat := 1 <<< 1

def Special.kFlush : Nat := 1 <<< 2

def Special.kAll : Nat := (1 <<< 3) - 1

/-- Class Special: a plain wrapper around a flag word. -/
structure Special where
  flags_ : Nat
  deriving DecidableEq, Repr

/-- Special::New (osformat.h). -/
def Special.New (f : Nat) : Special := ⟨f⟩

/-- Special::Newline (osformat.h): returns the kNewline bit. -/
def Special.Newline : Special := Special.New Special.kNewline

/-- Special::Flush (osformat.h): the source returns New(kNewline) here,
not New(kFlush). -/
def Special.Flush : Special := Special.New Special.kNewline

/-- Special::NewlineFlush (osformat.h). -/
def Special.NewlineFlush : Special := Special.New (Special.kNewline ||| Special.kFlush)

/-- Special::get (osformat.h). -/
def Special.get (s : Special) : Nat := s.flags_

/-- Special::HaveBits (osformat.h): (flags_ & f) != kNone. -/
def Special.HaveBits (s : Special) (f : Nat) : Bool := s.flags_ &&& f != Special.kNone

/-- The Format::Defines flag constants (osformat.h). -/
def Defines.kNone : Nat := 0

def Defines.kLocale : Nat := 1 <<< 1

def Defines.kPrecision : Nat := 1 <<< 2

def Defines.kWidth : Nat := 1 <<< 3

def Defines.kFill : Nat := 1 <<< 4

def Defines.kArg : Nat := 1 <<< 5

def Defines.kAll : Nat := (1 <<< 6) - 1

/-- The Format::Extensions flag constants (osformat.h). -/
def Extensions.kNone : Nat := 0

def Extensions.kIgnore : Nat := 1 <<< 1

def Extensions.kPlusSpace : Nat := 1 <<< 2

def Extensions.kStringNpos : Nat := 1 <<< 3

def Extensions.kAll : Nat := (1 <<< 4) - 1

/-- The adjustfield state of a std::ostream: default (right-adjusted
output), ios_base::left, or ios_base::internal. -/
inductive Adjust where
  | dflt
  | left
  | internal
  deriving DecidableEq, Repr

/-- The basefield state of a std::ostream. -/
inductive Base where
  | dec
  | hex
  | oct
  deriving DecidableEq, Repr

/-- The formatting state and accumulated output of the std::ostringstream
owned by a Manip.  Fields mirror the ios_base format flags the parser and
the argument dispatcher touch, plus fill, width, precision, the imbued
locale (reduced to a presence flag) and the output buffer. -/
structure OstreamConfig where
  showbase : Bool := false
  showpos : Bool := false
  boolalpha : Bool := false
  showpoint : Bool := false
  uppercase : Bool := false
  floatFixed : Bool := false
  floatScientific : Bool := false
  base : Base := Base.dec
  adjust : Adjust := Adjust.dflt
  fill : Char := ' '
  width : Int := 0
  precision : Int := 6
  imbued : Bool := false
  buf : List Char := []
  deriving DecidableEq, Repr

instance : Inhabited OstreamConfig := ⟨{}⟩

/-- Class Format::Manip (osformat.h): per-specifier stream state, extension
flags and the set of still-unsatisfied modifier kinds. -/
structure Manip where
  ostream_ : OstreamConfig := {}
  extensions_ : Nat := Extensions.kNone
  need_ : Nat := Defines.kNone
  deriving DecidableEq, Repr

instance : Inhabited Manip := ⟨{}⟩

/-- Class Format::References (osformat.h): which modifier kinds of which
Manip an argument slot feeds.  The Manip* pointer is embedded as the index
of the Manip in the format list. -/
structure References where
  set_these_ : Nat
  manip_ : Nat
  deriving DecidableEq, Repr

/-- The parse-time state of Format::ParseFormat: the Manip list (format_),
the border list, the specified-numbers list, the queue of not yet numbered
references (define_queue) and the per-argument binding lists (args_). -/
structure PState where
  manips : List Manip := []
  borders : List Nat := []
  specified : List Bool := []
  queue : List References := []
  args : List (List References) := []
  deriving DecidableEq, Repr

/-- The data of class Format::Parse that survives parsing and drives the
argument dispatcher: format_, borders_, args_, the cursor current_arg_
(an index into args_) and the simple_ flag. -/
structure ParseData where
  format_ : List Manip
  borders_ : List Nat
  args_ : List (List References)
  current_ : Nat
  simple_ : Bool
  deriving DecidableEq, Repr

/-- Class Format, reduced to the reported-error policy (abort_ == false):
the success flag slot, the current error code, the text (format string or
result), the optional parse state and the Special flags.  The output sinks
(string append, FILE, ostream) are not modelled; the object corresponds to
a Format constructed without a sink. -/
structure Format where
  success_ : Bool
  error_ : Error.Code
  text_ : List Char
  parse_ : Option ParseData
  flags_ : Special
  deriving DecidableEq, Repr

/-- The arguments fed through operator%, one constructor per family of
overloads the claims exercise: strings, characters, signed integers
(streamsize-compatible), unsigned integers (size_type), booleans and
locales. -/
inductive Value where
  | str (s : List Char)
  | char (c : Char)
  | int (n : Int)
  | uint (n : Nat)
  | bool (b : Bool)
  | locale
  deriving DecidableEq, Repr

/-- 2^64, the modulus of the 64-bit size_type arithmetic in ParseNumber. -/
def kMod : Nat := 18446744073709551616

/-- std::string::npos for a 64-bit size_type. -/
def kNpos : Nat := kMod - 1

-- Static helper functions of osformat.cc.

/-- Index of the first occurrence of a character in a list, if any. -/
def findChar (s : List Char) (c : Char) : Option Nat :=
  match s with
  | [] => none
  | x :: r => if x = c then some 0 else (findChar r c).map (fun k => k + 1)

/-- std::string::find(c, i): the smallest index j with i <= j < s.length
and s[j] = c, if any. -/
def findFrom (s : List Char) (c : Char) (i : Nat) : Option Nat :=
  (findChar (s.drop i) c).map (fun k => i + k)

/-- IsPositiveNumber (osformat.cc): a digit other than 0. -/
def IsPositiveNumber (c : Char) : Bool := c.isDigit && c != '0'

/-- The loop body of EndNumber: number of leading digits of a list. -/
def digitSpan (s : List Char) : Nat :=
  match s with
  | [] => 0
  | c :: r => if c.isDigit then digitSpan r + 1 else 0

/-- EndNumber (osformat.cc): the end of a nonnegative number starting at
start, assuming s[start] is already known to be a digit.  The loop
advances from start+1 over the remaining digits and stops at the first
non-digit or at the end of the string. -/
def EndNumber (s : List Char) (start : Nat) : Nat :=
  start + 1 + digitSpan (s.drop (start + 1))

/-- EndArgumentNumber (osformat.cc): the position just after the dollar of
the expression [1-9][0-9]*$ at start, if s contains one there (npos is
embedded as the value none).  Reading s[start] at the string end yields the
terminating NUL of std::string::operator[], embedded via getD. -/
def EndArgumentNumber (s : List Char) (start : Nat) : Option Nat :=
  if !IsPositiveNumber (s.getD start (Char.ofNat 0)) then
    none
  else
    let endn := EndNumber s start
    if endn ≠ s.length ∧ s.getD endn (Char.ofNat 0) = '$' then some (endn + 1)
    else none

/-- Numeric value of a digit character, static_cast<T>(c - '0'). -/
def digitVal (c : Char) : Nat := c.toNat - '0'.toNat

/-- The loop of Format::ParseNumber (osformat.h) over the digits after the
first one: result = result * 10 + digit in 64-bit arithmetic, failing with
kNumberOverflow as soon as the new value is not strictly larger than the
previous one. -/
def ParseNumberGo (result : Nat) : List Char → Except Error.Code Nat
  | [] => Except.ok result
  | c :: rest =>
      let next_result := (result * 10 + digitVal c) % kMod
      if next_result ≤ result then Except.error Error.Code.kNumberOverflow
      else ParseNumberGo next_result rest

/-- Format::ParseNumber (osformat.h) at T = size_type: parse the digits of
s from start to end_ (exclusive), starting from the value of the first
digit; 64-bit unsigned arithmetic is embedded as arithmetic modulo 2^64. -/
def ParseNumber (s : List Char) (start end_ : Nat) : Except Error.Code Nat :=
  ParseNumberGo (digitVal (s.getD start (Char.ofNat 0)))
    ((s.drop (start + 1)).take (end_ - (start + 1)))

-- The parser (Format::ParseFormat and its helpers, osformat.cc).

/-- std::vector::resize(n, d): keep the first n entries, fill up with d. -/
def resizeList {α : Type} (l : List α) (n : Nat) (d : α) : List α :=
  l.take n ++ List.replicate (n - l.length) d

/-- Format::Parse::SetIndirect (osformat.cc) on one binding list: if the
list already holds a reference to the same Manip, merge the flags into it,
else append a new reference. -/
def setIndirectList (refs : List References) (set_these : Nat) (midx : Nat) :
    List References :=
  match refs with
  | [] => [⟨set_these, midx⟩]
  | r :: rest =>
      if r.manip_ = midx then ⟨r.set_these_ ||| set_these, midx⟩ :: rest
      else r :: setIndirectList rest set_these midx

/-- Format::Parse::SetIndirect (osformat.cc): merge a reference into the
binding list args_[argnum]. -/
def SetIndirect (args : List (List References)) (argnum : Nat)
    (set_these : Nat) (midx : Nat) : List (List References) :=
  args.set argnum (setIndirectList (args.getD argnum []) set_these midx)

/-- Format::HandleArgumentNumber (osformat.cc): record argnum as specified,
growing specified and args_ to argnum + 1 entries when needed. -/
def HandleArgumentNumber (argnum : Nat) (ps : PState) : PState :=
  let ps :=
    if ps.specified.length ≤ argnum then
      { ps with specified := resizeList ps.specified (argnum + 1) false,
                args := resizeList ps.args (argnum + 1) [] }
    else ps
  { ps with specified := ps.specified.set argnum true }

/-- Format::SetArg (osformat.cc): prepare set_these to be filled from an
argument.  index points at the modifier character; on return it points
after the consumed sub-argument number (or just past the modifier when no
number follows, in which case the reference is queued).  Fails with
kMissingSpecifier when the string ends. -/
def SetArgM (set_these : Nat) (text : List Char) (index : Nat) (midx : Nat)
    (ps : PState) : Except Error.Code (Nat × PState) :=
  let ps := { ps with
    manips := ps.manips.set midx
      (let m := ps.manips.getD midx default
       { m with need_ := m.need_ ||| set_these }) }
  let index := index + 1
  if index = text.length then Except.error Error.Code.kMissingSpecifier
  else
    match EndArgumentNumber text index with
    | some end_ =>
        if end_ = text.length then Except.error Error.Code.kMissingSpecifier
        else
          match ParseNumber text index (end_ - 1) with
          | Except.error e => Except.error e
          | Except.ok argnum =>
              let argnum := argnum - 1
              let ps := HandleArgumentNumber argnum ps
              Except.ok (end_, { ps with args := SetIndirect ps.args argnum set_these midx })
    | none =>
        Except.ok (index, { ps with queue := ps.queue ++ [⟨set_these, midx⟩] })

/-- One Manip update inside the specifier loop. -/
def modifyManip (ps : PState) (midx : Nat) (f : Manip → Manip) : PState :=
  { ps with manips := ps.manips.set midx (f (ps.manips.getD midx default)) }

-- The effect of each switch case of the modifier/specifier loop of
-- Format::ParseFormat on the Manip under construction, one definition per
-- case label of the switch in osformat.cc.

/-- case '#': setf(showbase). -/
def caseHash (m : Manip) : Manip :=
  { m with ostream_ := { m.ostream_ with showbase := true } }

/-- case ' ': extensions_ |= kPlusSpace, then fall through to '+'. -/
def caseSpace (m : Manip) : Manip :=
  { m with extensions_ := m.extensions_ ||| Extensions.kPlusSpace,
           ostream_ := { m.ostream_ with showpos := true } }

/-- case '+': setf(showpos). -/
def casePlus (m : Manip) : Manip :=
  { m with ostream_ := { m.ostream_ with showpos := true } }

/-- case '0': fill('0'). -/
def caseZero (m : Manip) : Manip :=
  { m with ostream_ := { m.ostream_ with fill := '0' } }

/-- case '_': fill(text_[i]). -/
def caseFillChar (c : Char) (m : Manip) : Manip :=
  { m with ostream_ := { m.ostream_ with fill := c } }

/-- case '-': setf(left, adjustfield). -/
def caseMinus (m : Manip) : Manip :=
  { m with ostream_ := { m.ostream_ with adjust := Adjust.left } }

/-- case ':': setf(internal, adjustfield). -/
def caseColon (m : Manip) : Manip :=
  { m with ostream_ := { m.ostream_ with adjust := Adjust.internal } }

/-- case '.' with a literal number (or a plain dot): precision(p). -/
def caseDot (p : Int) (m : Manip) : Manip :=
  { m with ostream_ := { m.ostream_ with precision := p } }

/-- default case with digits: width(w). -/
def caseDigits (w : Int) (m : Manip) : Manip :=
  { m with ostream_ := { m.ostream_ with width := w } }

/-- case 'n': extensions_ |= kIgnore. -/
def caseLowerN (m : Manip) : Manip :=
  { m with extensions_ := m.extensions_ ||| Extensions.kIgnore }

/-- case 'S': setf(boolalpha | showpoint), extensions_ |= kStringNpos. -/
def caseUpperS (m : Manip) : Manip :=
  { m with extensions_ := m.extensions_ ||| Extensions.kStringNpos,
           ostream_ := { m.ostream_ with boolalpha := true, showpoint := true } }

/-- case 'd': setf(boolalpha), extensions_ |= kStringNpos. -/
def caseLowerD (m : Manip) : Manip :=
  { m with extensions_ := m.extensions_ ||| Extensions.kStringNpos,
           ostream_ := { m.ostream_ with boolalpha := true } }

/-- case 'D': setf(boolalpha | uppercase), extensions_ |= kStringNpos. -/
def caseUpperD (m : Manip) : Manip :=
  { m with extensions_ := m.extensions_ ||| Extensions.kStringNpos,
           ostream_ := { m.ostream_ with boolalpha := true, uppercase := true } }

/-- case 'x': setf(hex, basefield). -/
def caseLowerX (m : Manip) : Manip :=
  { m with ostream_ := { m.ostream_ with base := Base.hex } }

/-- case 'X': setf(hex | uppercase, basefield | uppercase). -/
def caseUpperX (m : Manip) : Manip :=
  { m with ostream_ := { m.ostream_ with base := Base.hex, uppercase := true } }

/-- case 'o': setf(oct, basefield). -/
def caseLowerO (m : Manip) : Manip :=
  { m with ostream_ := { m.ostream_ with base := Base.oct } }

/-- case 'O': setf(oct | uppercase, basefield | uppercase). -/
def caseUpperO (m : Manip) : Manip :=
  { m with ostream_ := { m.ostream_ with base := Base.oct, uppercase := true } }

/-- case 'f': setf(fixed). -/
def caseLowerF (m : Manip) : Manip :=
  { m with ostream_ := { m.ostream_ with floatFixed := true } }

/-- case 'F': setf(fixed | uppercase). -/
def caseUpperF (m : Manip) : Manip :=
  { m with ostream_ := { m.ostream_ with floatFixed := true, uppercase := true } }

/-- case 'e': setf(scientific). -/
def caseLowerE (m : Manip) : Manip :=
  { m with ostream_ := { m.ostream_ with floatScientific := true } }

/-- case 'E': setf(scientific | uppercase). -/
def caseUpperE (m : Manip) : Manip :=
  { m with ostream_ := { m.ostream_ with floatScientific := true, uppercase := true } }

/-- case 'a': setf(fixed | scientific). -/
def caseLowerA (m : Manip) : Manip :=
  { m with ostream_ := { m.ostream_ with floatFixed := true, floatScientific := true } }

/-- case 'A': setf(fixed | scientific | uppercase). -/
def caseUpperA (m : Manip) : Manip :=
  { m with ostream_ :=
      { m.ostream_ with floatFixed := true, floatScientific := true, uppercase := true } }

/-- The case labels of the switch in the modifier/specifier loop of
Format::ParseFormat. -/
inductive SpecCase where
  | cHash
  | cSpace
  | cPlus
  | cZero
  | cUnderscore
  | cSlash
  | cMinus
  | cColon
  | cStar
  | cDot
  | cTilde
  | cLowerN
  | cLowerS
  | cUpperS
  | cLowerD
  | cUpperD
  | cLowerX
  | cUpperX
  | cLowerO
  | cUpperO
  | cLowerF
  | cUpperF
  | cLowerE
  | cUpperE
  | cLowerA
  | cUpperA
  | cDigit
  | cUnknown
  deriving DecidableEq, Repr

/-- The case dispatch of that switch: which case label the scanned
character selects (the default case distinguishes digits, which are a
literal width, from unknown characters). -/
def classifyChar (c : Char) : SpecCase :=
  if c = '#' then SpecCase.cHash
  else if c = ' ' then SpecCase.cSpace
  else if c = '+' then SpecCase.cPlus
  else if c = '0' then SpecCase.cZero
  else if c = '_' then SpecCase.cUnderscore
  else if c = '/' then SpecCase.cSlash
  else if c = '-' then SpecCase.cMinus
  else if c = ':' then SpecCase.cColon
  else if c = '*' then SpecCase.cStar
  else if c = '.' then SpecCase.cDot
  else if c = '~' then SpecCase.cTilde
  else if c = 'n' then SpecCase.cLowerN
  else if c = 's' then SpecCase.cLowerS
  else if c = 'S' then SpecCase.cUpperS
  else if c = 'd' then SpecCase.cLowerD
  else if c = 'D' then SpecCase.cUpperD
  else if c = 'x' then SpecCase.cLowerX
  else if c = 'X' then SpecCase.cUpperX
  else if c = 'o' then SpecCase.cLowerO
  else if c = 'O' then SpecCase.cUpperO
  else if c = 'f' then SpecCase.cLowerF
  else if c = 'F' then SpecCase.cUpperF
  else if c = 'e' then SpecCase.cLowerE
  else if c = 'E' then SpecCase.cUpperE
  else if c = 'a' then SpecCase.cLowerA
  else if c = 'A' then SpecCase.cUpperA
  else if c.isDigit then SpecCase.cDigit
  else SpecCase.cUnknown

/-- The inner modifier/specifier loop of Format::ParseFormat (osformat.cc,
the switch over the characters after the percent sign and the optional
argument number).  i points at the next character to examine and is always
within the text; midx is the index of the Manip under construction.
Returns the position just after the specifier character.  fuel bounds the
number of loop steps; exhaustion yields the sentinel code kEnd. -/
def specLoop (fuel : Nat) (text : List Char) (i : Nat) (midx : Nat)
    (ps : PState) : Except Error.Code (Nat × PState) :=
  match fuel with
  | 0 => Except.error Error.Code.kEnd
  | fuel + 1 =>
    let c := text.getD i (Char.ofNat 0)
    -- each non-specifier case ends with the shared bound check
    -- if (++i == text_.size()) Throw(kMissingSpecifier)
    let step := fun (ps : PState) =>
      if i + 1 = text.length then Except.error Error.Code.kMissingSpecifier
      else specLoop fuel text (i + 1) midx ps
    match classifyChar c with
    | SpecCase.cHash => step (modifyManip ps midx caseHash)
    | SpecCase.cSpace =>
        -- the space case also falls through to the plus case
        step (modifyManip ps midx caseSpace)
    | SpecCase.cPlus => step (modifyManip ps midx casePlus)
    | SpecCase.cZero => step (modifyManip ps midx caseZero)
    | SpecCase.cUnderscore =>
        -- the fill character itself is consumed before the shared bound check
        if i + 1 = text.length then Except.error Error.Code.kMissingFillCharacter
        else if i + 2 = text.length then Except.error Error.Code.kMissingSpecifier
        else specLoop fuel text (i + 2) midx
          (modifyManip ps midx (caseFillChar (text.getD (i + 1) (Char.ofNat 0))))
    | SpecCase.cSlash =>
        match SetArgM Defines.kFill text i midx ps with
        | Except.error e => Except.error e
        | Except.ok (i, ps) => specLoop fuel text i midx ps
    | SpecCase.cMinus => step (modifyManip ps midx caseMinus)
    | SpecCase.cColon => step (modifyManip ps midx caseColon)
    | SpecCase.cStar =>
        match SetArgM Defines.kWidth text i midx ps with
        | Except.error e => Except.error e
        | Except.ok (i, ps) => specLoop fuel text i midx ps
    | SpecCase.cDot =>
        if i + 1 = text.length then Except.error Error.Code.kMissingSpecifier
        else
          let c2 := text.getD (i + 1) (Char.ofNat 0)
          if IsPositiveNumber c2 then
            let end_ := EndNumber text (i + 1)
            if end_ = text.length then Except.error Error.Code.kMissingSpecifier
            else
              match ParseNumber text (i + 1) end_ with
              | Except.error e => Except.error e
              | Except.ok precision =>
                  specLoop fuel text end_ midx
                    (modifyManip ps midx (caseDot (Int.ofNat precision)))
          else if c2 = '*' then
            match SetArgM Defines.kPrecision text (i + 1) midx ps with
            | Except.error e => Except.error e
            | Except.ok (i2, ps) => specLoop fuel text i2 midx ps
          else
            -- a plain . is admissible and interpreted as precision 0
            if i + 2 = text.length then Except.error Error.Code.kMissingSpecifier
            else specLoop fuel text (i + 2) midx (modifyManip ps midx (caseDot 0))
    | SpecCase.cTilde =>
        match SetArgM Defines.kLocale text i midx ps with
        | Except.error e => Except.error e
        | Except.ok (i, ps) => specLoop fuel text i midx ps
    | SpecCase.cLowerN => Except.ok (i + 1, modifyManip ps midx caseLowerN)
    | SpecCase.cLowerS => Except.ok (i + 1, ps)
    | SpecCase.cUpperS => Except.ok (i + 1, modifyManip ps midx caseUpperS)
    | SpecCase.cLowerD => Except.ok (i + 1, modifyManip ps midx caseLowerD)
    | SpecCase.cUpperD => Except.ok (i + 1, modifyManip ps midx caseUpperD)
    | SpecCase.cLowerX => Except.ok (i + 1, modifyManip ps midx caseLowerX)
    | SpecCase.cUpperX => Except.ok (i + 1, modifyManip ps midx caseUpperX)
    | SpecCase.cLowerO => Except.ok (i + 1, modifyManip ps midx caseLowerO)
    | SpecCase.cUpperO => Except.ok (i + 1, modifyManip ps midx caseUpperO)
    | SpecCase.cLowerF => Except.ok (i + 1, modifyManip ps midx caseLowerF)
    | SpecCase.cUpperF => Except.ok (i + 1, modifyManip ps midx caseUpperF)
    | SpecCase.cLowerE => Except.ok (i + 1, modifyManip ps midx caseLowerE)
    | SpecCase.cUpperE => Except.ok (i + 1, modifyManip ps midx caseUpperE)
    | SpecCase.cLowerA => Except.ok (i + 1, modifyManip ps midx caseLowerA)
    | SpecCase.cUpperA => Except.ok (i + 1, modifyManip ps midx caseUpperA)
    | SpecCase.cDigit =>
        -- default case: a digit run is a literal width
        let end_ := EndNumber text i
        if end_ = text.length then Except.error Error.Code.kMissingSpecifier
        else
          match ParseNumber text i end_ with
          | Except.error e => Except.error e
          | Except.ok width =>
              specLoop fuel text end_ midx
                (modifyManip ps midx (caseDigits (Int.ofNat width)))
    | SpecCase.cUnknown => Except.error Error.Code.kUnknownSpecifier

/-- The outer scan loop of Format::ParseFormat (osformat.cc): find the next
percent sign, collapse a double percent in place, or parse one specifier.
Returns the text after the in-place %% erasures together with the final
parse state.  fuel bounds the number of percent groups processed. -/
def parseLoop (fuel : Nat) (text : List Char) (i : Nat) (ps : PState) :
    Except Error.Code (List Char × PState) :=
  match fuel with
  | 0 => Except.error Error.Code.kEnd
  | fuel + 1 =>
    match findFrom text '%' i with
    | none => Except.ok (text, ps)
    | some start =>
      let i := start + 1
      if i = text.length then Except.error Error.Code.kTrailingPercentage
      else
        let c := text.getD i (Char.ofNat 0)
        if c = '%' then
          let text := text.eraseIdx i
          if i ≠ text.length then parseLoop fuel text i ps
          else Except.ok (text, ps)
        else
          let ps := { ps with borders := ps.borders ++ [start],
                              manips := ps.manips ++ [default] }
          let midx := ps.manips.length - 1
          let argRes : Except Error.Code (Bool × Nat × PState) :=
            match EndArgumentNumber text i with
            | some end_ =>
                if end_ = text.length then Except.error Error.Code.kMissingSpecifier
                else
                  match ParseNumber text i (end_ - 1) with
                  | Except.error e => Except.error e
                  | Except.ok argnum =>
                      let argnum := argnum - 1
                      let ps := HandleArgumentNumber argnum ps
                      Except.ok (false, end_,
                        { ps with args := SetIndirect ps.args argnum Defines.kArg midx })
            | none => Except.ok (true, i, ps)
          match argRes with
          | Except.error e => Except.error e
          | Except.ok (unknown_number, i, ps) =>
            match specLoop (text.length + 1) text i midx ps with
            | Except.error e => Except.error e
            | Except.ok (i, ps) =>
              let ps :=
                if unknown_number then
                  { ps with queue := ps.queue ++ [⟨Defines.kArg, midx⟩] }
                else ps
              parseLoop fuel text i { ps with borders := ps.borders ++ [i] }

/-- The while loop of the free-number allocation in Format::ParseFormat:
advance argnum over the explicitly specified slots. -/
def skipGo (l : List Bool) (argnum : Nat) : Nat :=
  match l with
  | true :: rest => skipGo rest (argnum + 1)
  | _ => argnum

/-- while ((argnum < specified.size()) && specified[argnum]) ++argnum. -/
def skipSpecified (specified : List Bool) (argnum : Nat) : Nat :=
  skipGo (specified.drop argnum) argnum

/-- The allocation loop of Format::ParseFormat (osformat.cc, lines
418-425): give each queued reference the next free argument number. -/
def allocateGo (queue : List References) (args : List (List References))
    (specified : List Bool) (argnum : Nat) : List (List References) :=
  match queue with
  | [] => args
  | ref :: rest =>
      let a := skipSpecified specified argnum
      allocateGo rest (SetIndirect args a ref.set_these_ ref.manip_) specified (a + 1)

/-- The allocation phase of Format::ParseFormat: when the define queue is
not empty, resize args_ to the total number of arguments and run the
allocation loop. -/
def allocatePhase (ps : PState) : PState :=
  if ps.queue.isEmpty then ps
  else
    let total_args := ps.queue.length + ps.specified.count true
    let args := resizeList ps.args total_args []
    { ps with args := allocateGo ps.queue args ps.specified 0 }

/-- Format::ParseFormat (osformat.cc): scan the format text, then allocate
numbers to the postponed requests. -/
def ParseFormat (text : List Char) : Except Error.Code (List Char × PState) :=
  match parseLoop (text.length + 1) text 0 {} with
  | Except.error e => Except.error e
  | Except.ok (text, ps) => Except.ok (text, allocatePhase ps)

/-- Format::Throw (osformat.cc) under the reported-error policy: record the
error, clear the success flag and drop the parse state. -/
def Format.Throw (f : Format) (e : Error.Code) : Format :=
  { f with error_ := e, success_ := false, parse_ := none }

/-- Format::InitialOutput (osformat.cc) for an object without a sink:
append the newline when the kNewline flag is set, record success and drop
the parse state. -/
def Format.InitialOutput (f : Format) : Format :=
  let text := if f.flags_.HaveBits Special.kNewline then f.text_ ++ ['\n'] else f.text_
  { f with text_ := text, error_ := Error.Code.kNone, success_ := true, parse_ := none }

/-- Format::Init for a real format string (osformat.cc): parse; on success,
either finish immediately (no arguments bound) or enter the underfed state
with error kTooFewArguments.  The embedded object has no sink and the
reported-error policy. -/
def Format.Init (text : List Char) : Format :=
  let f : Format := { success_ := false, error_ := Error.Code.kNone,
                      text_ := text, parse_ := none, flags_ := ⟨Special.kNone⟩ }
  match ParseFormat text with
  | Except.error e => f.Throw e
  | Except.ok (text', ps) =>
      if ps.args.isEmpty then
        Format.InitialOutput { f with text_ := text' }
      else
        { f with text_ := text',
                 error_ := Error.Code.kTooFewArguments, success_ := false,
                 parse_ := some { format_ := ps.manips, borders_ := ps.borders,
                                  args_ := ps.args, current_ := 0, simple_ := false } }

-- The argument dispatcher (Format::operator% and its helpers, osformat.h)
-- and the assembler (Format::FinishInsertingArgs, osformat.cc).

/-- static_cast<std::streamsize>(n) for a 64-bit unsigned n: two's
complement reinterpretation into the signed 64-bit range. -/
def castI64 (n : Nat) : Int :=
  if n % kMod < kMod / 2 then Int.ofNat (n % kMod)
  else Int.ofNat (n % kMod) - Int.ofNat kMod

/-- static_cast<char>(n): reduction to one byte. -/
def castChar (n : Int) : Char := Char.ofNat ((n % 256).toNat)

/-- Modelled from the spec: value-to-text conversion is delegated to the
standard ostream facility (spec section 1, OUT OF SCOPE).  This embeds the
padding step of formatted output: bodies shorter than the width are padded
with the fill character, after the body under ios_base::left and before it
otherwise, and the width resets to zero after each insertion. -/
def padAndAppend (os : OstreamConfig) (body : List Char) : OstreamConfig :=
  let w := os.width.toNat
  let padded :=
    if body.length < w then
      match os.adjust with
      | Adjust.left => body ++ List.replicate (w - body.length) os.fill
      | _ => List.replicate (w - body.length) os.fill ++ body
    else body
  { os with buf := os.buf ++ padded, width := 0 }

/-- Modelled from the spec: ostream insertion of a string. -/
def insertStr (os : OstreamConfig) (s : List Char) : OstreamConfig :=
  padAndAppend os s

/-- Modelled from the spec: ostream insertion of a character. -/
def insertChar (os : OstreamConfig) (c : Char) : OstreamConfig :=
  padAndAppend os [c]

/-- Modelled from the spec: ostream insertion of a signed integer, with
the basefield, uppercase, showpos and showbase flags of the stream. -/
def insertInt (os : OstreamConfig) (n : Int) : OstreamConfig :=
  let b := match os.base with
    | Base.dec => 10
    | Base.hex => 16
    | Base.oct => 8
  let digits := Nat.toDigits b n.natAbs
  let digits := if os.uppercase then digits.map Char.toUpper else digits
  let sign : List Char :=
    if n < 0 then ['-']
    else if os.showpos ∧ os.base = Base.dec then ['+'] else []
  let basePfx : List Char :=
    if os.showbase ∧ n ≠ 0 then
      match os.base with
      | Base.dec => []
      | Base.hex => if os.uppercase then ['0', 'X'] else ['0', 'x']
      | Base.oct => ['0']
    else []
  padAndAppend os (sign ++ basePfx ++ digits)

/-- Modelled from the spec: ostream insertion of an unsigned integer. -/
def insertUint (os : OstreamConfig) (n : Nat) : OstreamConfig :=
  let b := match os.base with
    | Base.dec => 10
    | Base.hex => 16
    | Base.oct => 8
  let digits := Nat.toDigits b (n % kMod)
  let digits := if os.uppercase then digits.map Char.toUpper else digits
  let sign : List Char :=
    if os.showpos ∧ os.base = Base.dec then ['+'] else []
  let basePfx : List Char :=
    if os.showbase ∧ n % kMod ≠ 0 then
      match os.base with
      | Base.dec => []
      | Base.hex => if os.uppercase then ['0', 'X'] else ['0', 'x']
      | Base.oct => ['0']
    else []
  padAndAppend os (sign ++ basePfx ++ digits)

/-- Modelled from the spec: ostream insertion of a bool: a word under
boolalpha, the digit otherwise. -/
def insertBool (os : OstreamConfig) (b : Bool) : OstreamConfig :=
  if os.boolalpha then
    padAndAppend os (if b then ['t', 'r', 'u', 'e'] else ['f', 'a', 'l', 's', 'e'])
  else insertInt os (if b then 1 else 0)

/-- Format::SetLocale (osformat.h): only a locale argument is accepted;
imbuing is reduced to a presence flag. -/
def SetLocaleV (os : OstreamConfig) (arg : Value) : Except Error.Code OstreamConfig :=
  match arg with
  | Value.locale => Except.ok { os with imbued := true }
  | _ => Except.error Error.Code.kLocaleArgIsNoLocale

/-- Format::SetPrecision (osformat.h): the numeric overloads store the
value cast to streamsize; the default template reports
kPrecisionArgIsNotNumeric. -/
def SetPrecisionV (os : OstreamConfig) (arg : Value) : Except Error.Code OstreamConfig :=
  match arg with
  | Value.bool b => Except.ok { os with precision := if b then 1 else 0 }
  | Value.char c => Except.ok { os with precision := Int.ofNat c.toNat }
  | Value.int n => Except.ok { os with precision := n }
  | Value.uint n => Except.ok { os with precision := castI64 n }
  | _ => Except.error Error.Code.kPrecisionArgIsNotNumeric

/-- Format::SetWidth (osformat.h): the signed overloads negate a negative
width and force left adjustment; the bool and unsigned overloads store the
cast value unchanged; the char overload only has the negation branch for
negative values, which a nonnegative scalar never enters; the default
template reports kWidthArgIsNotNumeric. -/
def SetWidthV (os : OstreamConfig) (arg : Value) : Except Error.Code OstreamConfig :=
  match arg with
  | Value.bool b => Except.ok { os with width := if b then 1 else 0 }
  | Value.char c => Except.ok { os with width := Int.ofNat c.toNat }
  | Value.int n =>
      if n < 0 then Except.ok { os with width := -n, adjust := Adjust.left }
      else Except.ok { os with width := n }
  | Value.uint n => Except.ok { os with width := castI64 n }
  | _ => Except.error Error.Code.kWidthArgIsNotNumeric

/-- Format::SetFill (osformat.h): the scalar overloads store the value
cast to char; the default template reports kFillArgIsNotChar. -/
def SetFillV (os : OstreamConfig) (arg : Value) : Except Error.Code OstreamConfig :=
  match arg with
  | Value.bool b => Except.ok { os with fill := castChar (if b then 1 else 0) }
  | Value.char c => Except.ok { os with fill := c }
  | Value.int n => Except.ok { os with fill := castChar n }
  | Value.uint n => Except.ok { os with fill := castChar (castI64 n) }
  | _ => Except.error Error.Code.kFillArgIsNotChar

/-- Format::StringStandard (osformat.h): ordinary ostream output, except
that a locale argument reports kLocaleMustNotBeOutput. -/
def StringStandard (os : OstreamConfig) (arg : Value) : Except Error.Code OstreamConfig :=
  match arg with
  | Value.locale => Except.error Error.Code.kLocaleMustNotBeOutput
  | Value.str s => Except.ok (insertStr os s)
  | Value.char c => Except.ok (insertChar os c)
  | Value.int n => Except.ok (insertInt os n)
  | Value.uint n => Except.ok (insertUint os n)
  | Value.bool b => Except.ok (insertBool os b)

/-- Format::StringNpos (osformat.h): like StringStandard, but a size_type
argument equal to std::string::npos prints a fixed literal. -/
def StringNpos (os : OstreamConfig) (arg : Value) : Except Error.Code OstreamConfig :=
  match arg with
  | Value.locale => Except.error Error.Code.kLocaleMustNotBeOutput
  | Value.uint n =>
      if n = kNpos then
        Except.ok (insertStr os
          ['s', 't', 'd', ':', ':', 's', 't', 'r', 'i', 'n', 'g', ':', ':', 'n', 'p', 'o', 's'])
      else Except.ok (insertUint os n)
  | Value.str s => Except.ok (insertStr os s)
  | Value.char c => Except.ok (insertChar os c)
  | Value.int n => Except.ok (insertInt os n)
  | Value.bool b => Except.ok (insertBool os b)

/-- The body of the references loop in Format::operator% (osformat.h,
lines 1364-1415) for one reference: apply the locale, precision, width and
fill parts in this order, clearing each satisfied need bit, and the main
argument last; a main argument hitting a Manip with an unsatisfied need
reports kTooEarlyArgument. -/
def applyRef (manips : List Manip) (arg : Value) (ref : References) :
    Except Error.Code (List Manip) :=
  let m := manips.getD ref.manip_ default
  let set_these := ref.set_these_
  let step1 : Except Error.Code Manip :=
    if set_these &&& Defines.kLocale ≠ Defines.kNone then
      match SetLocaleV m.ostream_ arg with
      | Except.error e => Except.error e
      | Except.ok os =>
            Except.ok { m with ostream_ := os,
                               need_ := m.need_ &&& (Defines.kAll ^^^ Defines.kLocale) }
    else Except.ok m
  match step1 with
  | Except.error e => Except.error e
  | Except.ok m =>
    let step2 : Except Error.Code Manip :=
      if set_these &&& Defines.kPrecision ≠ Defines.kNone then
        match SetPrecisionV m.ostream_ arg with
        | Except.error e => Except.error e
        | Except.ok os =>
            Except.ok { m with ostream_ := os,
                               need_ := m.need_ &&& (Defines.kAll ^^^ Defines.kPrecision) }
      else Except.ok m
    match step2 with
    | Except.error e => Except.error e
    | Except.ok m =>
      let step3 : Except Error.Code Manip :=
        if set_these &&& Defines.kWidth ≠ Defines.kNone then
          match SetWidthV m.ostream_ arg with
          | Except.error e => Except.error e
          | Except.ok os =>
              Except.ok { m with ostream_ := os,
                                 need_ := m.need_ &&& (Defines.kAll ^^^ Defines.kWidth) }
        else Except.ok m
      match step3 with
      | Except.error e => Except.error e
      | Except.ok m =>
        let step4 : Except Error.Code Manip :=
          if set_these &&& Defines.kFill ≠ Defines.kNone then
            match SetFillV m.ostream_ arg with
            | Except.error e => Except.error e
            | Except.ok os =>
                Except.ok { m with ostream_ := os,
                                   need_ := m.need_ &&& (Defines.kAll ^^^ Defines.kFill) }
          else Except.ok m
        match step4 with
        | Except.error e => Except.error e
        | Except.ok m =>
          -- it is important to process kArg last so that all data is set
          if set_these &&& Defines.kArg = Defines.kNone then
            Except.ok (manips.set ref.manip_ m)
          else if m.need_ ≠ Defines.kNone then
            Except.error Error.Code.kTooEarlyArgument
          else if m.extensions_ &&& Extensions.kIgnore ≠ Extensions.kNone then
            Except.ok (manips.set ref.manip_ m)
          else if m.extensions_ &&& Extensions.kStringNpos ≠ Extensions.kNone then
            match StringNpos m.ostream_ arg with
            | Except.error e => Except.error e
            | Except.ok os => Except.ok (manips.set ref.manip_ { m with ostream_ := os })
          else
            match StringStandard m.ostream_ arg with
            | Except.error e => Except.error e
            | Except.ok os => Except.ok (manips.set ref.manip_ { m with ostream_ := os })

/-- The references loop of Format::operator% over all bindings of the
current argument index. -/
def applyRefs (manips : List Manip) (arg : Value) :
    List References → Except Error.Code (List Manip)
  | [] => Except.ok manips
  | ref :: rest =>
      match applyRef manips arg ref with
      | Except.error e => Except.error e
      | Except.ok manips => applyRefs manips arg rest

/-- The first-plus-to-space substitution of Format::FinishInsertingArgs
(osformat.cc, lines 495-499): replace the first plus character, if any. -/
def plusSpaceFirst (s : List Char) : List Char :=
  match findFrom s '+' 0 with
  | none => s
  | some plus => s.set plus ' '

/-- The per-Manip step of the assembly loop in Format::FinishInsertingArgs:
nothing for an ignored Manip, the rendered text otherwise, with the first
plus replaced by a space when the kPlusSpace extension is set. -/
def manipContribution (m : Manip) : List Char :=
  if m.extensions_ &&& Extensions.kIgnore ≠ Extensions.kNone then []
  else if m.extensions_ &&& Extensions.kPlusSpace = Extensions.kNone then
    m.ostream_.buf
  else plusSpaceFirst m.ostream_.buf

/-- The assembly loop of Format::FinishInsertingArgs: walk Manips and
border pairs in lockstep, splicing literal text around each contribution,
then append the tail after the last specifier. -/
def finishGo (text : List Char) : List Manip → List Nat → Nat → List Char → List Char
  | [], _, pos, result => result ++ text.drop pos
  | m :: ms, b1 :: b2 :: bs, pos, result =>
      finishGo text ms bs b2
        (result ++ (text.drop pos).take (b1 - pos) ++ manipContribution m)
  | _ :: _, _, pos, result => result ++ text.drop pos

/-- Format::FinishInsertingArgs (osformat.cc): assemble the final text. -/
def FinishInsertingArgs (text : List Char) (manips : List Manip)
    (borders : List Nat) : List Char :=
  finishGo text manips borders 0 []

/-- Format::operator% (osformat.h): feed one argument.  Without parse
state, a first error becomes kTooManyArguments and later arguments are
ignored; in simple mode the argument is rendered directly; otherwise the
bindings of the current argument index are applied and, after the last
index, the result is assembled. -/
def feed (f : Format) (arg : Value) : Format :=
  match f.parse_ with
  | none =>
      if f.error_ = Error.Code.kNone then f.Throw Error.Code.kTooManyArguments else f
  | some p =>
      if p.simple_ then
        match StringStandard default arg with
        | Except.error e => f.Throw e
        | Except.ok os => Format.InitialOutput { f with text_ := os.buf }
      else
        match applyRefs p.format_ arg (p.args_.getD p.current_ []) with
        | Except.error e => f.Throw e
        | Except.ok manips =>
            if p.current_ + 1 = p.args_.length then
              Format.InitialOutput
                { f with text_ := FinishInsertingArgs f.text_ manips p.borders_,
                         parse_ := none }
            else
              { f with parse_ := some { p with format_ := manips,
                                               current_ := p.current_ + 1 } }

/-- Format::Check (osformat.h): reading a result while parse state remains
reports kTooFewArguments. -/
def Format.Check (f : Format) : Format :=
  if f.parse_.isSome then f.Throw Error.Code.kTooFewArguments else f

/-- Format::str (osformat.h): Check, then hand out the text. -/
def Format.str (f : Format) : List Char × Format :=
  let f := f.Check
  (f.text_, f)

/-- Construct a Format from a format string and feed a list of arguments
in index order. -/
def renderAll (text : List Char) (argsIn : List Value) : Format :=
  argsIn.foldl feed (Format.Init text)

/-- Double every percent sign of a string; the image of this map is the
set of format strings consisting of literal text and %% groups only. -/
def doublePercents : List Char → List Char
  | [] => []
  | c :: r => if c = '%' then '%' :: '%' :: doublePercents r else c :: doublePercents r

-- Derived definitions used to state the verified properties.

/-- The sequence of argument numbers the allocation loop hands out when it
starts its cursor at start: each entry is the next free slot after the
previous one. -/
def allocSeq (specified : List Bool) (start : Nat) : Nat → Nat
  | 0 => skipSpecified specified start
  | k + 1 => skipSpecified specified (allocSeq specified start k + 1)

/-- The argument number the k-th queued (unnumbered) reference receives. -/
def allocIdx (specified : List Bool) (k : Nat) : Nat :=
  allocSeq specified 0 k

/-- An argument slot is free when it is not explicitly specified anywhere
in the format string (slots beyond the specified list are free). -/
def isFreeIdx (specified : List Bool) (n : Nat) : Prop :=
  specified.getD n false = false

/-- The define queue left over by the scan loop of ParseFormat, in the
order the unnumbered references were postponed. -/
def parsedQueue (text : List Char) : List References :=
  match ParseFormat text with
  | Except.ok (_, ps) => ps.queue
  | Except.error _ => []

/-- The k-th Manip produced by parsing a format string. -/
def parsedManip (text : List Char) (k : Nat) : Manip :=
  match ParseFormat text with
  | Except.ok (_, ps) => ps.manips.getD k default
  | Except.error _ => default

/-- Exact decimal value of a digit string. -/
def decDigits (ds : List Char) : Nat :=
  ds.foldl (fun a c => a * 10 + digitVal c) 0

/-- The 64-bit machine accumulator value of a digit string: its decimal
value reduced modulo 2^64. -/
def macc (ds : List Char) : Nat := decDigits ds % kMod

/-- The accumulation of ParseNumber breaks down somewhere while the digits
of rest are appended after those of done: at some split point the new
64-bit accumulator value is not strictly larger than the previous one. -/
def hasBreak (done rest : List Char) : Prop :=
  ∃ t1 c t2, rest = t1 ++ c :: t2 ∧ macc (done ++ t1 ++ [c]) ≤ macc (done ++ t1)

-- General lemmas about the search and splice helpers.

theorem findChar_of_not_mem {c : Char} :
    ∀ {s : List Char}, c ∉ s → findChar s c = none := by
  intro s
  induction s with
  | nil => intro _; rfl
  | cons x r ih =>
      intro h
      have hx : ¬x = c := fun hc => h (hc ▸ List.mem_cons_self x r)
      have hr : c ∉ r := fun hc => h (List.mem_cons_of_mem x hc)
      simp [findChar, hx, ih hr]

theorem findChar_append_cons {c : Char} :
    ∀ (a z : List Char), c ∉ a → findChar (a ++ c :: z) c = some a.length := by
  intro a
  induction a with
  | nil => intro z _; simp [findChar]
  | cons x r ih =>
      intro z h
      have hx : ¬x = c := fun hc => h (hc ▸ List.mem_cons_self x r)
      have hr : c ∉ r := fun hc => h (List.mem_cons_of_mem x hc)
      simp [findChar, hx, ih z hr]

theorem set_append_cons :
    ∀ (a : List Char) (x : Char) (b : List Char) (y : Char),
      (a ++ x :: b).set a.length y = a ++ y :: b := by
  intro a
  induction a with
  | nil => intro x b y; simp
  | cons h t ih => intro x b y; simp [List.set, ih]

theorem findFrom_zero (s : List Char) (c : Char) :
    findFrom s c 0 = findChar s c := by
  simp only [findFrom, List.drop_zero]
  cases findChar s c <;> simp

-- C7.

/-- C7: the static constructor Special::Flush() returns a Special whose
flag word is the kNewline constant, not the kFlush constant, so Flush()
and Newline() coincide. -/
theorem claim_C7 :
    Special.Flush = Special.Newline ∧
    Special.Flush.get = Special.kNewline ∧
    Special.kNewline ≠ Special.kFlush := by
  refine ⟨rfl, rfl, by decide⟩

-- C8.

/-- C8: SetWidth negates a negative signed width argument and forces left
adjustment; nonnegative signed, unsigned and boolean width arguments leave
the adjustment unchanged, a boolean being stored as 0 or 1; concretely,
width -7 left-aligns Hello in 7 columns and width 7 right-aligns it. -/
theorem claim_C8 :
    (∀ (os : OstreamConfig) (n : Int), n < 0 →
        SetWidthV os (Value.int n) =
          Except.ok { os with width := -n, adjust := Adjust.left }) ∧
    (∀ (os : OstreamConfig) (n : Int), 0 ≤ n →
        SetWidthV os (Value.int n) = Except.ok { os with width := n }) ∧
    (∀ (os : OstreamConfig) (n : Nat),
        SetWidthV os (Value.uint n) = Except.ok { os with width := castI64 n }) ∧
    (∀ (os : OstreamConfig) (b : Bool),
        SetWidthV os (Value.bool b) =
          Except.ok { os with width := if b then 1 else 0 }) ∧
    (renderAll "%*s".toList [Value.int (-7), Value.str "Hello".toList]).text_ =
      "Hello  ".toList ∧
    (renderAll "%*s".toList [Value.int 7, Value.str "Hello".toList]).text_ =
      "  Hello".toList := by
  refine ⟨?_, ?_, ?_, ?_, by decide, by decide⟩
  · intro os n hn; simp [SetWidthV, hn]
  · intro os n hn; simp [SetWidthV, Int.not_lt.mpr hn]
  · intro os n; rfl
  · intro os b; rfl

theorem claim_C8_witness :
    SetWidthV {} (Value.int (-7)) =
      Except.ok { ({} : OstreamConfig) with width := 7, adjust := Adjust.left } := by
  have h := claim_C8.1 {} (-7) (by decide)
  simpa using h

-- C9.

/-- C9: when the kPlusSpace extension is set, the assembler replaces the
first plus character of the rendered text by a space, leaving later plus
characters unchanged; without the flag, or without a plus, the rendered
text is emitted unchanged. -/
theorem claim_C9 :
    (∀ (m : Manip) (a b : List Char),
        m.extensions_ &&& Extensions.kIgnore = Extensions.kNone →
        m.extensions_ &&& Extensions.kPlusSpace ≠ Extensions.kNone →
        m.ostream_.buf = a ++ '+' :: b → '+' ∉ a →
        manipContribution m = a ++ ' ' :: b) ∧
    (∀ (m : Manip),
        m.extensions_ &&& Extensions.kIgnore = Extensions.kNone →
        m.extensions_ &&& Extensions.kPlusSpace ≠ Extensions.kNone →
        '+' ∉ m.ostream_.buf →
        manipContribution m = m.ostream_.buf) ∧
    (∀ (m : Manip),
        m.extensions_ &&& Extensions.kIgnore = Extensions.kNone →
        m.extensions_ &&& Extensions.kPlusSpace = Extensions.kNone →
        manipContribution m = m.ostream_.buf) := by
  refine ⟨?_, ?_, ?_⟩
  · intro m a b hig hps hbuf ha
    have hf : findFrom m.ostream_.buf '+' 0 = some a.length := by
      rw [hbuf, findFrom_zero]; exact findChar_append_cons a b ha
    simp only [manipContribution, plusSpaceFirst, hf]
    rw [if_neg (fun hc => hc hig), if_neg hps, hbuf, set_append_cons]
  · intro m hig hps hplus
    have hf : findFrom m.ostream_.buf '+' 0 = none := by
      rw [findFrom_zero]; exact findChar_of_not_mem hplus
    simp only [manipContribution, plusSpaceFirst, hf]
    rw [if_neg (fun hc => hc hig), if_neg hps]
  · intro m hig hps
    simp only [manipContribution]
    rw [if_neg (fun hc => hc hig), if_pos hps]

theorem claim_C9_witness :
    manipContribution
      { ostream_ := { buf := ['+', '5', '+'] }, extensions_ := Extensions.kPlusSpace,
        need_ := Defines.kNone } = [' ', '5', '+'] := by
  have h := claim_C9.1
    { ostream_ := { buf := ['+', '5', '+'] }, extensions_ := Extensions.kPlusSpace,
      need_ := Defines.kNone } [] ['5', '+'] (by decide) (by decide) rfl (by decide)
  simpa using h

-- C3.

/-- C3: reading a result while parse state remains reports
kTooFewArguments, and feeding an argument to an already completed,
error-free format reports kTooManyArguments; concretely, a two-argument
format read after one argument yields kTooFewArguments, and a completed
one-argument format fed a second argument yields kTooManyArguments. -/
theorem claim_C3 :
    (∀ (f : Format), f.parse_.isSome →
        (Format.str f).2.error_ = Error.Code.kTooFewArguments) ∧
    (∀ (f : Format) (v : Value), f.parse_ = none → f.error_ = Error.Code.kNone →
        (feed f v).error_ = Error.Code.kTooManyArguments) ∧
    (Format.str (feed (Format.Init "%s %s".toList)
        (Value.str ['x']))).2.error_ = Error.Code.kTooFewArguments ∧
    (renderAll "%s".toList [Value.str ['x']]).error_ = Error.Code.kNone ∧
    (feed (renderAll "%s".toList [Value.str ['x']])
        (Value.str ['y'])).error_ = Error.Code.kTooManyArguments := by
  refine ⟨?_, ?_, by decide, by decide, by decide⟩
  · intro f h
    rcases hp : f.parse_ with _ | p
    · rw [hp] at h; simp at h
    · simp [Format.str, Format.Check, Format.Throw, hp]
  · intro f v h1 h2
    simp [feed, h1, h2, Format.Throw]

theorem claim_C3_witness :
    (Format.str { success_ := false, error_ := Error.Code.kTooFewArguments,
                  text_ := [], flags_ := ⟨Special.kNone⟩,
                  parse_ := some { format_ := [], borders_ := [], args_ := [[]],
                                   current_ := 0, simple_ := false } }).2.error_ =
      Error.Code.kTooFewArguments := by
  exact claim_C3.1 _ (by decide)

-- C2.

/-- C2: the bindings of one argument are applied with the main argument
last: a pure main-argument reference hitting a Manip with any unsatisfied
need reports kTooEarlyArgument, while a reference carrying both the width
and the main argument succeeds on a numeric value because the width is
resolved before the main argument is checked; concretely, a format
requiring the width of argument 1 from argument 2 fails with
kTooEarlyArgument when value 1 arrives. -/
theorem claim_C2 :
    (∀ (manips : List Manip) (midx : Nat) (v : Value),
        (manips.getD midx default).need_ ≠ Defines.kNone →
        applyRef manips v ⟨Defines.kArg, midx⟩ =
          Except.error Error.Code.kTooEarlyArgument) ∧
    (∀ (manips : List Manip) (midx : Nat) (n : Int) (e : Error.Code),
        (manips.getD midx default).need_ = Defines.kWidth →
        (manips.getD midx default).extensions_ = Extensions.kNone →
        applyRef manips (Value.int n) ⟨Defines.kWidth ||| Defines.kArg, midx⟩ ≠
          Except.error e) ∧
    (feed (Format.Init "%1$*2$s".toList) (Value.int 1)).error_ =
      Error.Code.kTooEarlyArgument := by
  refine ⟨?_, ?_, by decide⟩
  · intro manips midx v h
    have e1 : Defines.kArg &&& Defines.kLocale = Defines.kNone := by decide
    have e2 : Defines.kArg &&& Defines.kPrecision = Defines.kNone := by decide
    have e3 : Defines.kArg &&& Defines.kWidth = Defines.kNone := by decide
    have e4 : Defines.kArg &&& Defines.kFill = Defines.kNone := by decide
    have e5 : ¬Defines.kArg &&& Defines.kArg = Defines.kNone := by decide
    have e0 : ¬Defines.kArg = Defines.kNone := by decide
    simp only [List.getD, List.get?_eq_getElem?] at h
    simp [applyRef, e1, e2, e3, e4, e5, e0, h]
  · intro manips midx n e h1 h2
    have e1 : (Defines.kWidth ||| Defines.kArg) &&& Defines.kLocale = Defines.kNone := by
      decide
    have e2 : (Defines.kWidth ||| Defines.kArg) &&& Defines.kPrecision = Defines.kNone := by
      decide
    have e3 : ¬(Defines.kWidth ||| Defines.kArg) &&& Defines.kWidth = Defines.kNone := by
      decide
    have e4 : (Defines.kWidth ||| Defines.kArg) &&& Defines.kFill = Defines.kNone := by
      decide
    have e5 : ¬(Defines.kWidth ||| Defines.kArg) &&& Defines.kArg = Defines.kNone := by
      decide
    have e6 : Defines.kWidth &&& (Defines.kAll ^^^ Defines.kWidth) = Defines.kNone := by
      decide
    have e7 : Extensions.kNone &&& Extensions.kIgnore = Extensions.kNone := by decide
    have e8 : Extensions.kNone &&& Extensions.kStringNpos = Extensions.kNone := by decide
    simp only [List.getD, List.get?_eq_getElem?] at h1 h2
    by_cases hn : n < 0 <;>
      simp [applyRef, SetWidthV, hn, h1, h2, StringStandard,
        e1, e2, e3, e4, e5, e6, e7, e8]

theorem claim_C2_witness :
    applyRef [{ need_ := Defines.kWidth }] (Value.int 1) ⟨Defines.kArg, 0⟩ =
      Except.error Error.Code.kTooEarlyArgument := by
  exact claim_C2.1 [{ need_ := Defines.kWidth }] 0 (Value.int 1) (by decide)

-- C10.

/-- C10: processing the space modifier sets both the kPlusSpace extension
and the showpos flag on the Manip under construction (the space case falls
through to the plus case), so the parse of a space-modified directive
leaves both flags set and a positive number renders with a leading space
in place of the plus sign. -/
theorem claim_C10 :
    (∀ (fuel : Nat) (text : List Char) (i midx : Nat) (ps : PState),
        text.getD i (Char.ofNat 0) = ' ' →
        i + 1 ≠ text.length →
        specLoop (fuel + 1) text i midx ps =
          specLoop fuel text (i + 1) midx (modifyManip ps midx caseSpace)) ∧
    (∀ (m : Manip),
        (caseSpace m).extensions_ = m.extensions_ ||| Extensions.kPlusSpace ∧
        (caseSpace m).ostream_.showpos = true) ∧
    (parsedManip "% d".toList 0).extensions_ &&& Extensions.kPlusSpace ≠
      Extensions.kNone ∧
    (parsedManip "% d".toList 0).ostream_.showpos = true ∧
    (renderAll "% d".toList [Value.int 5]).text_ = " 5".toList := by
  refine ⟨?_, ?_, by decide, by decide, by decide⟩
  · intro fuel text i midx ps hc hlen
    simp only [List.getD_eq_getElem?_getD] at hc
    simp [specLoop, hc, hlen, show classifyChar ' ' = SpecCase.cSpace from rfl]
  · intro m
    exact ⟨rfl, rfl⟩

theorem claim_C10_witness :
    specLoop 6 "% d".toList 1 0 {} =
      specLoop 5 "% d".toList 2 0 (modifyManip {} 0 caseSpace) := by
  exact claim_C10.1 5 "% d".toList 1 0 {} (by decide) (by decide)

-- Lemmas about the free-number allocation (for C1).

theorem skipSpecified_spec (specified : List Bool) :
    ∀ (a : Nat),
      a ≤ skipSpecified specified a ∧
      isFreeIdx specified (skipSpecified specified a) ∧
      (∀ m, a ≤ m → m < skipSpecified specified a →
        specified.getD m false = true) := by
  intro a
  generalize hl : specified.drop a = l
  induction l generalizing a with
  | nil =>
      have hlen : specified.length ≤ a := by
        by_contra hlt
        push_neg at hlt
        have := List.drop_eq_getElem_cons hlt
        rw [hl] at this
        exact List.noConfusion this
      have hs : skipSpecified specified a = a := by
        simp [skipSpecified, hl, skipGo]
      refine ⟨by omega, ?_, ?_⟩
      · rw [isFreeIdx, hs]
        exact List.getD_eq_default _ _ hlen
      · intro m hm1 hm2
        rw [hs] at hm2
        omega
  | cons b rest ih =>
      have hlt : a < specified.length := by
        by_contra hge
        push_neg at hge
        rw [List.drop_eq_nil_of_le hge] at hl
        exact List.noConfusion hl
      have hcons := List.drop_eq_getElem_cons hlt
      rw [hl] at hcons
      have hb : specified[a] = b := (List.cons.injEq _ _ _ _ ▸ hcons).1.symm
      have hrest : specified.drop (a + 1) = rest :=
        ((List.cons.injEq _ _ _ _ ▸ hcons).2).symm
      have hgetD : specified.getD a false = b := by
        rw [List.getD_eq_getElem?_getD, List.getElem?_eq_getElem hlt, hb]
        rfl
      cases b with
      | false =>
          refine ⟨?_, ?_, ?_⟩
          · simp [skipSpecified, hl, skipGo]
          · simpa [skipSpecified, hl, skipGo, isFreeIdx] using hgetD
          · intro m hm1 hm2
            simp [skipSpecified, hl, skipGo] at hm2
            omega
      | true =>
          have hskip : skipSpecified specified a = skipSpecified specified (a + 1) := by
            simp [skipSpecified, hl, skipGo, hrest]
          obtain ⟨ih1, ih2, ih3⟩ := ih (a + 1) hrest
          refine ⟨?_, ?_, ?_⟩
          · rw [hskip]; omega
          · rw [hskip]; exact ih2
          · intro m hm1 hm2
            rw [hskip] at hm2
            rcases Nat.eq_or_lt_of_le hm1 with heq | hlt2
            · rw [← heq]; exact hgetD
            · exact ih3 m hlt2 hm2

theorem allocSeq_spec (specified : List Bool) (start : Nat) :
    ∀ k, isFreeIdx specified (allocSeq specified start k) ∧
         start ≤ allocSeq specified start k ∧
         (∀ j, j < k → allocSeq specified start j < allocSeq specified start k) := by
  intro k
  induction k with
  | zero =>
      obtain ⟨h1, h2, _⟩ := skipSpecified_spec specified start
      exact ⟨h2, h1, fun j hj => absurd hj (Nat.not_lt_zero j)⟩
  | succ k ih =>
      obtain ⟨ih1, ih2, ih3⟩ := ih
      obtain ⟨h1, h2, _⟩ := skipSpecified_spec specified (allocSeq specified start k + 1)
      have hstep : allocSeq specified start (k + 1) =
          skipSpecified specified (allocSeq specified start k + 1) := rfl
      refine ⟨by rw [hstep]; exact h2, by omega, ?_⟩
      intro j hj
      have hk : allocSeq specified start k <
          allocSeq specified start (k + 1) := by omega
      rcases Nat.lt_succ_iff_lt_or_eq.mp hj with hlt | heq
      · exact lt_trans (ih3 j hlt) hk
      · rw [heq]; exact hk

theorem allocSeq_min (specified : List Bool) (start : Nat) :
    ∀ (k n : Nat), start ≤ n → isFreeIdx specified n →
      (∀ j, j < k → allocSeq specified start j ≠ n) →
      allocSeq specified start k ≤ n := by
  intro k
  induction k with
  | zero =>
      intro n hn hfree _
      obtain ⟨_, _, h3⟩ := skipSpecified_spec specified start
      by_contra hgt
      push_neg at hgt
      have := h3 n hn hgt
      rw [isFreeIdx] at hfree
      rw [hfree] at this
      exact Bool.noConfusion this
  | succ k ih =>
      intro n hn hfree hne
      have hk : allocSeq specified start k ≤ n :=
        ih n hn hfree (fun j hj => hne j (Nat.lt_succ_of_lt hj))
      have hkn : allocSeq specified start k ≠ n := hne k (Nat.lt_succ_self k)
      have hk1 : allocSeq specified start k + 1 ≤ n := by omega
      obtain ⟨_, _, h3⟩ := skipSpecified_spec specified (allocSeq specified start k + 1)
      by_contra hgt
      push_neg at hgt
      have := h3 n hk1 hgt
      rw [isFreeIdx] at hfree
      rw [hfree] at this
      exact Bool.noConfusion this

theorem allocSeq_shift (specified : List Bool) (start : Nat) :
    ∀ k, allocSeq specified start (k + 1) =
      allocSeq specified (skipSpecified specified start + 1) k := by
  intro k
  induction k with
  | zero => rfl
  | succ k ih =>
      show skipSpecified specified (allocSeq specified start (k + 1) + 1) =
        skipSpecified specified
          (allocSeq specified (skipSpecified specified start + 1) k + 1)
      rw [ih]

theorem allocateGo_eq (specified : List Bool) :
    ∀ (queue : List References) (args : List (List References)) (start : Nat),
      allocateGo queue args specified start =
        (queue.zip ((List.range queue.length).map (allocSeq specified start))).foldl
          (fun as p => SetIndirect as p.2 p.1.set_these_ p.1.manip_) args := by
  intro queue
  induction queue with
  | nil => intro args start; rfl
  | cons ref rest ih =>
      intro args start
      rw [allocateGo]
      rw [ih (SetIndirect args (skipSpecified specified start)
            ref.set_these_ ref.manip_) (skipSpecified specified start + 1)]
      rw [List.length_cons, List.range_succ_eq_map]
      rw [List.map_cons, List.zip_cons_cons, List.foldl_cons]
      have hmap : (List.map Nat.succ (List.range rest.length)).map
            (allocSeq specified start) =
          (List.range rest.length).map
            (allocSeq specified (skipSpecified specified start + 1)) := by
        rw [List.map_map]
        apply List.map_congr_left
        intro k _
        exact allocSeq_shift specified start k
      rw [hmap]
      rfl

-- C1.

/-- C1: the free-number allocator hands the queued unnumbered references
(which the parser queues in textual order, each specifier queueing its
indirect-modifier references before its main-argument reference, as the
parse of a width-then-main specifier shows) the indices allocIdx 0,
allocIdx 1, ... in order, where each allocIdx k is free, the sequence is
strictly increasing, and allocIdx k is the smallest index that is neither
explicitly specified nor equal to an earlier allocation; concretely, the
format with an unnumbered reference before an explicit reference to
argument 1, fed b then a, renders a b. -/
theorem claim_C1 :
    (∀ (specified : List Bool) (queue : List References)
        (args : List (List References)),
        allocateGo queue args specified 0 =
          (queue.zip ((List.range queue.length).map (allocIdx specified))).foldl
            (fun as p => SetIndirect as p.2 p.1.set_these_ p.1.manip_) args) ∧
    (∀ (specified : List Bool) (k : Nat),
        isFreeIdx specified (allocIdx specified k)) ∧
    (∀ (specified : List Bool) (j k : Nat), j < k →
        allocIdx specified j < allocIdx specified k) ∧
    (∀ (specified : List Bool) (k n : Nat),
        isFreeIdx specified n → (∀ j, j < k → allocIdx specified j ≠ n) →
        allocIdx specified k ≤ n) ∧
    parsedQueue "%*s".toList = [⟨Defines.kWidth, 0⟩, ⟨Defines.kArg, 0⟩] ∧
    (renderAll "%s %1$s".toList [Value.str ['b'], Value.str ['a']]).text_ =
      "a b".toList ∧
    (renderAll "%s %1$s".toList [Value.str ['b'], Value.str ['a']]).error_ =
      Error.Code.kNone := by
  refine ⟨?_, ?_, ?_, ?_, by decide, by decide, by decide⟩
  · intro specified queue args
    exact allocateGo_eq specified queue args 0
  · intro specified k
    exact (allocSeq_spec specified 0 k).1
  · intro specified j k hjk
    exact (allocSeq_spec specified 0 k).2.2 j hjk
  · intro specified k n hfree hne
    exact allocSeq_min specified 0 k n (Nat.zero_le n) hfree hne

theorem claim_C1_witness :
    allocIdx [true] 0 < allocIdx [true] 1 ∧ allocIdx [true] 0 ≤ 1 := by
  refine ⟨claim_C1.2.2.1 [true] 0 1 (by decide),
          claim_C1.2.2.2.1 [true] 0 1 rfl ?_⟩
  intro j hj
  exact absurd hj (Nat.not_lt_zero j)

-- Lemmas about the 64-bit digit accumulation of ParseNumber (for C6).

theorem digitVal_lt_kMod (c : Char) : digitVal c < kMod := by
  have := c.val.toNat_lt
  rw [digitVal, Char.toNat, kMod]
  omega

theorem decDigits_append_singleton (xs : List Char) (c : Char) :
    decDigits (xs ++ [c]) = decDigits xs * 10 + digitVal c := by
  simp [decDigits, List.foldl_append]

theorem macc_append_singleton (xs : List Char) (c : Char) :
    macc (xs ++ [c]) = (macc xs * 10 + digitVal c) % kMod := by
  rw [macc, macc, decDigits_append_singleton]
  conv_rhs => rw [Nat.add_mod, Nat.mod_mul_mod, ← Nat.add_mod]

theorem ParseNumberGo_ok (rest : List Char) :
    ∀ (done : List Char), ¬ hasBreak done rest →
      ParseNumberGo (macc done) rest = Except.ok (macc (done ++ rest)) := by
  induction rest with
  | nil => intro done _; simp [ParseNumberGo]
  | cons c r ih =>
      intro done hnb
      simp only [ParseNumberGo]
      rw [← macc_append_singleton]
      have hgt : ¬ macc (done ++ [c]) ≤ macc done := by
        intro hle
        exact hnb ⟨[], c, r, by simp, by simpa using hle⟩
      rw [if_neg hgt]
      have hnb2 : ¬ hasBreak (done ++ [c]) r := by
        rintro ⟨t1, x, t2, heq, hle⟩
        exact hnb ⟨c :: t1, x, t2, by simp [heq], by simpa [List.append_assoc] using hle⟩
      have := ih (done ++ [c]) hnb2
      simpa [List.append_assoc] using this

theorem ParseNumberGo_err (rest : List Char) :
    ∀ (done : List Char), hasBreak done rest →
      ParseNumberGo (macc done) rest = Except.error Error.Code.kNumberOverflow := by
  induction rest with
  | nil =>
      rintro done ⟨t1, x, t2, heq, -⟩
      exact absurd heq (by simp)
  | cons c r ih =>
      rintro done ⟨t1, x, t2, heq, hle⟩
      simp only [ParseNumberGo]
      rw [← macc_append_singleton]
      by_cases hc : macc (done ++ [c]) ≤ macc done
      · rw [if_pos hc]
      · rw [if_neg hc]
        cases t1 with
        | nil =>
            simp only [List.nil_append, List.cons.injEq] at heq
            obtain ⟨hx, -⟩ := heq
            rw [← hx] at hle
            exact absurd (by simpa using hle) hc
        | cons y t1 =>
            simp only [List.cons_append, List.cons.injEq] at heq
            obtain ⟨hy, hr⟩ := heq
            have hb2 : hasBreak (done ++ [c]) r := by
              refine ⟨t1, x, t2, hr, ?_⟩
              rw [hy]
              simpa [List.append_assoc] using hle
            have h2 := ih (done ++ [c]) hb2
            simpa using h2

-- C6.

/-- C6 (amended): parsing a number literal fails with kNumberOverflow
exactly when the 64-bit accumulation is at some step not strictly
increasing; when it never breaks, the parsed value is the decimal value
of the digits reduced modulo 2^64 (so it equals the decimal value exactly
when that value fits in 64 bits, but the monotonicity check does not
detect every overflow). -/
theorem claim_C6 :
    ∀ (s : List Char) (start end_ : Nat), start < end_ →
      ((ParseNumber s start end_ = Except.error Error.Code.kNumberOverflow) ↔
        hasBreak [s.getD start (Char.ofNat 0)]
          ((s.drop (start + 1)).take (end_ - (start + 1)))) ∧
      (¬ hasBreak [s.getD start (Char.ofNat 0)]
          ((s.drop (start + 1)).take (end_ - (start + 1))) →
        ParseNumber s start end_ =
          Except.ok (decDigits ((s.drop start).take (end_ - start)) % kMod)) := by
  intro s start end_ hlt
  have hmacc1 : ∀ c : Char, macc [c] = digitVal c := by
    intro c
    rw [macc, decDigits]
    simp [Nat.mod_eq_of_lt (digitVal_lt_kMod c)]
  have hPN : ParseNumber s start end_ =
      ParseNumberGo (macc [s.getD start (Char.ofNat 0)])
        ((s.drop (start + 1)).take (end_ - (start + 1))) := by
    rw [ParseNumber, hmacc1]
  by_cases hs : s.length ≤ start
  · have hd1 : s.drop start = [] := List.drop_eq_nil_of_le hs
    have hd2 : s.drop (start + 1) = [] := List.drop_eq_nil_of_le (by omega)
    have hg : s.getD start (Char.ofNat 0) = Char.ofNat 0 :=
      List.getD_eq_default _ _ hs
    constructor
    · rw [hPN, hd2]
      simp only [List.take_nil, ParseNumberGo]
      constructor
      · intro herr; exact absurd herr (by simp)
      · rintro ⟨t1, x, t2, heq, -⟩; exact absurd heq (by simp)
    · intro _
      rw [hPN, hd2, hd1]
      simp only [List.take_nil, ParseNumberGo]
      rw [hg, hmacc1]
      norm_num [decDigits]
      decide
  · push_neg at hs
    have hcons : s.drop start = s[start] :: s.drop (start + 1) :=
      List.drop_eq_getElem_cons hs
    have hg : s.getD start (Char.ofNat 0) = s[start] := by
      rw [List.getD_eq_getElem?_getD, List.getElem?_eq_getElem hs]
      rfl
    have hds : (s.drop start).take (end_ - start) =
        s[start] :: (s.drop (start + 1)).take (end_ - (start + 1)) := by
      rw [hcons]
      have he : end_ - start = (end_ - (start + 1)) + 1 := by omega
      rw [he, List.take_succ_cons]
    constructor
    · constructor
      · intro herr
        by_contra hnb
        rw [hPN, ParseNumberGo_ok _ _ hnb] at herr
        exact absurd herr (by simp)
      · intro hb
        rw [hPN, ParseNumberGo_err _ _ hb]
    · intro hnb
      rw [hPN, ParseNumberGo_ok _ _ hnb, hds, hg]
      rw [macc]
      simp

/-- C6 counterexample: a twenty-digit literal whose 64-bit accumulation
never breaks monotonicity, so ParseNumber accepts it, but whose parsed
value differs from its decimal value (it is the decimal value minus
2^64). -/
theorem claim_C6_counterexample :
    ParseNumber "30000000000000000000".toList 0 20 =
      Except.ok 11553255926290448384 ∧
    decDigits (("30000000000000000000".toList.drop 0).take 20) =
      30000000000000000000 ∧
    (11553255926290448384 : Nat) ≠ 30000000000000000000 := by
  refine ⟨by rfl, by rfl, by decide⟩

theorem claim_C6_witness :
    ParseNumber "17".toList 0 2 = Except.ok 17 := by
  have hnb : ¬ hasBreak ["17".toList.getD 0 (Char.ofNat 0)]
      (("17".toList.drop (0 + 1)).take (2 - (0 + 1))) := by
    rintro ⟨t1, x, t2, heq, hle⟩
    have heq' : (['7'] : List Char) = t1 ++ x :: t2 := heq
    cases t1 with
    | nil =>
        simp only [List.nil_append, List.cons.injEq] at heq'
        obtain ⟨hx, ht2⟩ := heq'
        rw [← hx] at hle
        revert hle
        decide
    | cons y t1 =>
        simp only [List.cons_append, List.cons.injEq] at heq'
        exact absurd heq'.2 (by simp)
  have h := (claim_C6 "17".toList 0 2 (by decide)).2 hnb
  simpa using h

-- Lemmas about the scan loop on percent-doubled strings (for C4).

theorem doublePercents_no_percent : ∀ {s : List Char}, '%' ∉ s →
    doublePercents s = s := by
  intro s
  induction s with
  | nil => intro _; rfl
  | cons c r ih =>
      intro h
      have hc : ¬c = '%' := fun hc => h (hc ▸ List.mem_cons_self c r)
      have hr : '%' ∉ r := fun hc => h (List.mem_cons_of_mem c hc)
      simp [doublePercents, hc, ih hr]

theorem doublePercents_split : ∀ (a r : List Char), '%' ∉ a →
    doublePercents (a ++ '%' :: r) = a ++ '%' :: '%' :: doublePercents r := by
  intro a
  induction a with
  | nil => intro r _; simp [doublePercents]
  | cons c t ih =>
      intro r h
      have hc : ¬c = '%' := fun hc => h (hc ▸ List.mem_cons_self c t)
      have ht : '%' ∉ t := fun hc => h (List.mem_cons_of_mem c hc)
      simp [doublePercents, hc, ih r ht]

theorem doublePercents_eq_nil : ∀ {s : List Char}, doublePercents s = [] → s = [] := by
  intro s
  cases s with
  | nil => intro _; rfl
  | cons c r =>
      intro h
      by_cases hc : c = '%' <;> simp [doublePercents, hc] at h

theorem doublePercents_length_ge : ∀ (s : List Char),
    s.length ≤ (doublePercents s).length := by
  intro s
  induction s with
  | nil => simp [doublePercents]
  | cons c r ih =>
      by_cases hc : c = '%' <;> simp [doublePercents, hc] <;> omega

theorem percent_split : ∀ (s : List Char),
    '%' ∉ s ∨ ∃ a r, s = a ++ '%' :: r ∧ '%' ∉ a := by
  intro s
  induction s with
  | nil => left; simp
  | cons c t ih =>
      by_cases hc : c = '%'
      · right; exact ⟨[], t, by rw [hc]; rfl, by simp⟩
      · rcases ih with hnp | ⟨a, r, hsplit, hna⟩
        · left
          intro hmem
          rcases List.mem_cons.mp hmem with heq | hmem2
          · exact hc heq.symm
          · exact hnp hmem2
        · right
          exact ⟨c :: a, r, by rw [hsplit]; rfl, by
            intro hmem
            rcases List.mem_cons.mp hmem with heq | hmem2
            · exact hc heq.symm
            · exact hna hmem2⟩

theorem findFrom_append_none (p a : List Char) (c : Char) (h : c ∉ a) :
    findFrom (p ++ a) c p.length = none := by
  rw [findFrom, List.drop_left, findChar_of_not_mem h]
  rfl

theorem findFrom_append_some (p a z : List Char) (c : Char) (h : c ∉ a) :
    findFrom (p ++ (a ++ c :: z)) c p.length = some (p.length + a.length) := by
  rw [findFrom, List.drop_left, findChar_append_cons a z h]
  rfl

theorem getD_append_add_one (q : List Char) (x y : Char) (w : List Char) (d : Char) :
    (q ++ x :: y :: w).getD (q.length + 1) d = y := by
  induction q with
  | nil => rfl
  | cons h t ih => simpa [List.getD_cons_succ] using ih

theorem eraseIdx_append_add_one (q : List Char) (x y : Char) (w : List Char) :
    (q ++ x :: y :: w).eraseIdx (q.length + 1) = q ++ x :: w := by
  induction q with
  | nil => rfl
  | cons h t ih => simpa [List.eraseIdx_cons_succ] using ih

theorem parseLoop_doubled :
    ∀ (n : Nat) (s2 : List Char), s2.length ≤ n →
      ∀ (fuel : Nat) (p : List Char) (ps : PState), s2.length + 1 ≤ fuel →
        parseLoop fuel (p ++ doublePercents s2) p.length ps =
          Except.ok (p ++ s2, ps) := by
  intro n
  induction n with
  | zero =>
      intro s2 hs2 fuel p ps hfuel
      have hnil : s2 = [] := List.length_eq_zero.mp (Nat.le_zero.mp hs2)
      subst hnil
      cases fuel with
      | zero => omega
      | succ fuel =>
          rw [doublePercents, parseLoop, findFrom_append_none p [] '%' (by simp)]
  | succ n ihn =>
      intro s2 hs2 fuel p ps hfuel
      rcases percent_split s2 with hnp | ⟨a, r, hsplit, hna⟩
      · cases fuel with
        | zero => omega
        | succ fuel =>
            rw [doublePercents_no_percent hnp, parseLoop,
              findFrom_append_none p s2 '%' hnp]
      · subst hsplit
        cases fuel with
        | zero => omega
        | succ fuel =>
            rw [doublePercents_split a r hna, parseLoop,
              findFrom_append_some p a ('%' :: doublePercents r) '%' hna]
            have hassoc : p ++ (a ++ '%' :: '%' :: doublePercents r) =
                (p ++ a) ++ '%' :: '%' :: doublePercents r := by
              simp [List.append_assoc]
            have hq : p.length + a.length = (p ++ a).length := by
              simp [List.length_append]
            have hlen1 : ¬ (p.length + a.length + 1 =
                (p ++ (a ++ '%' :: '%' :: doublePercents r)).length) := by
              simp [List.length_append]
              omega
            have hgetD : (p ++ (a ++ '%' :: '%' :: doublePercents r)).getD
                (p.length + a.length + 1) (Char.ofNat 0) = '%' := by
              rw [hassoc, hq]
              exact getD_append_add_one (p ++ a) '%' '%' (doublePercents r) _
            have herase : (p ++ (a ++ '%' :: '%' :: doublePercents r)).eraseIdx
                (p.length + a.length + 1) = (p ++ a) ++ '%' :: doublePercents r := by
              rw [hassoc, hq]
              exact eraseIdx_append_add_one (p ++ a) '%' '%' (doublePercents r)
            simp only [hlen1, if_neg, ite_false, hgetD, if_pos, ite_true, herase,
              eq_self_iff_true, if_false]
            by_cases hr : r = []
            · subst hr
              have hlen2 : p.length + a.length + 1 =
                  ((p ++ a) ++ '%' :: doublePercents []).length := by
                simp [doublePercents, List.length_append]
                omega
              rw [if_neg (fun hc => hc hlen2)]
              simp [doublePercents, List.append_assoc]
            · have hdp : doublePercents r ≠ [] :=
                fun hc => hr (doublePercents_eq_nil hc)
              have hlen2 : p.length + a.length + 1 ≠
                  ((p ++ a) ++ '%' :: doublePercents r).length := by
                simp [List.length_append]
                intro hc
                exact hdp (List.length_eq_zero.mp (by omega))
              rw [if_pos hlen2]
              have hstep : (p ++ a) ++ '%' :: doublePercents r =
                  ((p ++ a) ++ ['%']) ++ doublePercents r := by
                simp [List.append_assoc]
              have hplen : p.length + a.length + 1 = ((p ++ a) ++ ['%']).length := by
                simp [List.length_append]
                omega
              rw [hstep, hplen]
              have hres := ihn r (by
                  have := List.length_append a ('%' :: r)
                  simp [List.length_append] at hs2
                  omega)
                fuel ((p ++ a) ++ ['%']) ps (by
                  simp [List.length_append] at hfuel ⊢
                  omega)
              rw [hres]
              simp [List.append_assoc]

-- C4.

/-- C4: every doubled percent collapses to exactly one literal percent and
scanning continues behind it: a format string built by doubling every
percent of an arbitrary string (so consisting of literal text and %%
groups only, in every position including the string end) parses without
error, binds no arguments, and renders as the original string. -/
theorem claim_C4 :
    ∀ (s : List Char),
      (Format.Init (doublePercents s)).text_ = s ∧
      (Format.Init (doublePercents s)).error_ = Error.Code.kNone := by
  intro s
  have hparse : ParseFormat (doublePercents s) = Except.ok (s, ({} : PState)) := by
    rw [ParseFormat]
    have h := parseLoop_doubled s.length s (Nat.le_refl _)
      ((doublePercents s).length + 1) [] {} (by
        have := doublePercents_length_ge s
        omega)
    simp only [List.nil_append, List.length_nil] at h
    rw [h]
    rfl
  constructor
  · rw [Format.Init, hparse]
    simp [Format.InitialOutput, Special.HaveBits, Special.kNone, Special.kNewline,
      PState.args]
  · rw [Format.Init, hparse]
    simp [Format.InitialOutput, Special.HaveBits, Special.kNone, Special.kNewline,
      PState.args]

-- Lemmas showing which errors the parser can actually produce (for C5).

theorem ParseNumberGo_nwd :
    ∀ (rest : List Char) (r : Nat),
      ParseNumberGo r rest ≠ Except.error Error.Code.kNumberWithoutDollar := by
  intro rest
  induction rest with
  | nil => intro r; simp [ParseNumberGo]
  | cons c rest ih =>
      intro r
      simp only [ParseNumberGo]
      split
      · simp
      · exact ih _

theorem ParseNumber_nwd (s : List Char) (start end_ : Nat) :
    ParseNumber s start end_ ≠ Except.error Error.Code.kNumberWithoutDollar :=
  ParseNumberGo_nwd _ _

theorem SetArgM_nwd (set_these : Nat) (text : List Char) (index midx : Nat)
    (ps : PState) :
    SetArgM set_these text index midx ps ≠
      Except.error Error.Code.kNumberWithoutDollar := by
  simp only [SetArgM]
  intro hc
  repeat' split at hc
  all_goals
    first
      | (injection hc with hval
         first
           | exact Error.Code.noConfusion hval
           | (rename_i heq
              rw [hval] at heq
              exact ParseNumber_nwd _ _ _ heq))
      | injection hc

theorem specLoop_nwd :
    ∀ (fuel : Nat) (text : List Char) (i midx : Nat) (ps : PState),
      specLoop fuel text i midx ps ≠
        Except.error Error.Code.kNumberWithoutDollar := by
  intro fuel
  induction fuel with
  | zero => intro text i midx ps; simp [specLoop]
  | succ fuel ih =>
      intro text i midx ps
      simp only [specLoop]
      intro hc
      repeat' split at hc
      all_goals
        first
          | exact ih _ _ _ _ hc
          | (injection hc with hval
             first
               | exact Error.Code.noConfusion hval
               | (rename_i heq
                  rw [hval] at heq
                  first
                    | exact SetArgM_nwd _ _ _ _ _ heq
                    | exact ParseNumber_nwd _ _ _ heq))
          | injection hc

theorem parseLoop_nwd :
    ∀ (fuel : Nat) (text : List Char) (i : Nat) (ps : PState),
      parseLoop fuel text i ps ≠
        Except.error Error.Code.kNumberWithoutDollar := by
  intro fuel
  induction fuel with
  | zero => intro text i ps; simp [parseLoop]
  | succ fuel ih =>
      intro text i ps
      simp only [parseLoop]
      intro hc
      repeat' split at hc
      all_goals
        first
          | exact ih _ _ _ hc
          | (injection hc with hval
             first
               | exact Error.Code.noConfusion hval
               | (rename_i heq
                  rw [hval] at heq
                  first
                    | exact specLoop_nwd _ _ _ _ _ heq
                    | exact ParseNumber_nwd _ _ _ heq
                    | (repeat' split at heq
                       all_goals
                         first
                           | (injection heq with hv2
                              first
                                | exact Error.Code.noConfusion hv2
                                | (rename_i heq2
                                   rw [hv2] at heq2
                                   exact ParseNumber_nwd _ _ _ heq2))
                           | injection heq)))
          | injection hc

theorem ParseFormat_nwd (text : List Char) :
    ParseFormat text ≠ Except.error Error.Code.kNumberWithoutDollar := by
  rw [ParseFormat]
  intro hc
  repeat' split at hc
  all_goals
    first
      | (injection hc with hval
         first
           | exact Error.Code.noConfusion hval
           | (rename_i heq
              rw [hval] at heq
              exact parseLoop_nwd _ _ _ _ heq))
      | injection hc

-- C5.

/-- C5 (amended): kNumberWithoutDollar is declared in the error taxonomy
but is not a reachable failure mode of the format-string parser: no format
text makes construction fail with it (an argument-number-shaped digit run
without a trailing dollar is instead treated as a literal width or as an
unnumbered reference). -/
theorem claim_C5 :
    ∀ (text : List Char),
      (Format.Init text).error_ ≠ Error.Code.kNumberWithoutDollar := by
  intro text
  simp only [Format.Init]
  split
  · rename_i heq
    simp only [Format.Throw]
    intro hc
    exact ParseFormat_nwd text (heq.trans (by rw [hc]))
  · split <;> simp [Format.InitialOutput]

/-- C5 counterexample to the claim as stated: there is no format text at
all on which the parser fails with kNumberWithoutDollar. -/
theorem claim_C5_counterexample :
    ¬ ∃ (text : List Char),
        (Format.Init text).error_ = Error.Code.kNumberWithoutDollar := by
  rintro ⟨text, h⟩
  exact claim_C5 text h

end osformat
